import Mathlib

/-!
Shallow embedding of the order-management service core
(`app/repositories/orders.py`, `app/services/orders.py`,
`app/services/cache.py`, `app/services/auth.py`,
`app/repositories/users.py`, `app/db/models.py`), together with proofs
of the cache-aside consistency properties stated in the specification.

Modelling conventions:
- The SQLAlchemy store is a list of rows; `session.execute(select ...)`
  composes a filter, and `scalar_one_or_none` returns the unique match,
  `none`, or raises `MultipleResultsFound` (modelled as an error).
- Redis is a list of key/value/ttl entries; serialization round-trips
  (`model_dump_json` / `model_validate_json`) are the identity.
- UUIDs are opaque string tokens; `uuid.uuid4()` draws are passed as
  explicit arguments, with freshness a hypothesis where needed.
- Every operation returns its result (or raised error), the post state,
  and the ordered trace of store/cache/messaging effects it performed.
- An environment flag `cacheSetFails` models the cache client raising
  on `set_cached` (connection/serialization failure); the code has no
  exception handler around cache writes, so such an error propagates.
-/

namespace OrdersManagement

/-- Order status enumeration (`OrderStatus` in app/db/models.py). -/
inductive OrderStatus where
  | PENDING
  | PAID
  | SHIPPED
  | CANCELED
deriving DecidableEq, Repr

/-- Persisted order row (`Order` in app/db/models.py). The UUID primary
key is an opaque string token; `items` is the opaque string-keyed JSON
payload (only stored and returned, never interpreted); `total_price`
(a float column) is modelled as an opaque integer quantity since the
core only stores and compares it. -/
structure Order where
  id : String
  user_id : Nat
  items : List (String × Int)
  total_price : Int
  status : OrderStatus
  created_at : Nat
deriving DecidableEq, Repr

/-- Read model returned to callers (`OrderRead` in app/schemas/orders.py). -/
structure OrderRead where
  id : String
  user_id : Nat
  items : List (String × Int)
  total_price : Int
  status : OrderStatus
  created_at : Nat
deriving DecidableEq, Repr

/-- `OrderRead.model_validate(order, from_attributes=True)`: field-by-field
copy of the row into the read model. -/
def OrderRead.ofOrder (o : Order) : OrderRead :=
  { id := o.id, user_id := o.user_id, items := o.items,
    total_price := o.total_price, status := o.status, created_at := o.created_at }

/-- Input payload for creating an order (`OrderCreate` in app/schemas/orders.py). -/
structure OrderCreate where
  items : List (String × Int)
  total_price : Int
deriving DecidableEq, Repr

/-- Input payload for a status update (`OrderUpdateStatus` in app/schemas/orders.py). -/
structure OrderUpdateStatus where
  status : OrderStatus
deriving DecidableEq, Repr

/-- One Redis entry as written by `set_cached` (app/services/cache.py):
`setex` stores the serialized value under the key with a TTL. The TTL is
recorded so TTL claims can inspect it; expiry itself is not modelled
(no claim involves the passage of time). -/
structure CacheEntry where
  key : String
  value : OrderRead
  ttl : Nat
deriving DecidableEq, Repr

/-- `cache_key` (app/services/cache.py): `f"{prefix}:{entity_id}"`. -/
def cache_key (pfx : String) (entity_id : String) : String :=
  pfx ++ ":" ++ entity_id

/-- `get_cached` (app/services/cache.py): `redis.get(key)` and deserialize;
`none` on a miss. -/
def get_cached (c : List CacheEntry) (key : String) : Option OrderRead :=
  (c.find? (fun e => e.key == key)).map (fun e => e.value)

/-- `set_cached` (app/services/cache.py): `redis.setex(key, ttl, value)` —
overwrites any existing entry for the key. -/
def set_cached (c : List CacheEntry) (key : String) (value : OrderRead)
    (ttl_seconds : Nat) : List CacheEntry :=
  { key := key, value := value, ttl := ttl_seconds } ::
    c.filter (fun e => e.key != key)

/-- `invalidate_key` (app/services/cache.py): `redis.delete(key)` —
idempotent removal. -/
def invalidate_key (c : List CacheEntry) (key : String) : List CacheEntry :=
  c.filter (fun e => e.key != key)

/-- Modelled from the spec: the repository reads `settings.cache_ttl_seconds`
(app/repositories/orders.py), but the `Settings` class in
app/core/config.py does not declare a `cache_ttl_seconds` field in the
sources provided, so the configured value is missing from src. The spec
fixes it: "TTL fixed at a configured number of seconds (300 in the
reference)". -/
def cache_ttl_seconds : Nat := 300

/-- Errors raised by the core, by exception identity:
`notFound` = `ValueError("Order not found")`,
`forbidden` = `PermissionError("Forbidden")`,
`emailExists` = `ValueError("email_exists")`,
`badCredentials` = `PermissionError("bad_credentials")`,
`multipleResults` = sqlalchemy `MultipleResultsFound` from `scalar_one_or_none`,
`cacheFailure` = an error raised by the cache client during `set_cached`. -/
inductive Err where
  | notFound
  | forbidden
  | emailExists
  | badCredentials
  | multipleResults
  | cacheFailure
deriving DecidableEq, Repr

/-- Observable side effects, in program order: store reads
(`session.execute`), store commits, cache get/set/delete, and event
publication (`publish_new_order`). -/
inductive Effect where
  | storeQuery
  | storeCommit
  | cacheGet (key : String)
  | cacheSet (key : String) (ttl : Nat)
  | cacheDelete (key : String)
  | publish (order_id : String)
deriving DecidableEq, Repr

def isStoreQuery : Effect → Bool
  | .storeQuery => true
  | _ => false

def isPublish : Effect → Bool
  | .publish _ => true
  | _ => false

def isCacheEffect : Effect → Bool
  | .cacheGet _ => true
  | .cacheSet _ _ => true
  | .cacheDelete _ => true
  | _ => false

/-- Combined state seen by `OrdersRepository`: the orders table, the Redis
contents, whether a Redis client was injected (`redis is not None`),
whether the environment makes `set_cached` raise, and the current clock
(used for `created_at` defaults). -/
structure RepoState where
  store : List Order
  cache : List CacheEntry
  redis : Bool
  cacheSetFails : Bool
  now : Nat
deriving DecidableEq, Repr

/-- `Result.scalar_one_or_none()`: `none` on zero rows, the row on exactly
one, `MultipleResultsFound` on more. -/
def scalar_one_or_none {α : Type} : List α → Except Err (Option α)
  | [] => .ok none
  | [a] => .ok (some a)
  | _ :: _ :: _ => .error .multipleResults

/-- `OrdersRepository._order_cache_key`: `cache_key("order", order_id)`. -/
def order_cache_key (order_id : String) : String :=
  cache_key "order" order_id

/-- `OrdersRepository.create` (app/repositories/orders.py). `newId` is the
`uuid.uuid4()` draw for the new row; `st.now` the `datetime.now` default.
The commit appends the row; with a Redis client the cache is then warmed
(`set_cached`), and a failure of that write propagates (there is no
exception handler around it), though the row is already committed. -/
def OrdersRepository.create (st : RepoState) (newId : String) (user_id : Nat)
    (data : OrderCreate) : Except Err OrderRead × RepoState × List Effect :=
  let order : Order :=
    { id := newId, user_id := user_id, items := data.items,
      total_price := data.total_price, status := .PENDING, created_at := st.now }
  let st1 : RepoState := { st with store := st.store ++ [order] }
  let read := OrderRead.ofOrder order
  if st.redis then
    if st.cacheSetFails then
      (.error .cacheFailure, st1, [.storeCommit])
    else
      (.ok read,
        { st1 with cache := set_cached st1.cache (order_cache_key read.id) read cache_ttl_seconds },
        [.storeCommit, .cacheSet (order_cache_key read.id) cache_ttl_seconds])
  else
    (.ok read, st1, [.storeCommit])

/-- `OrdersRepository.get` (app/repositories/orders.py), cache-aside:
try Redis first; on a miss select by primary key, raise `notFound` when
absent, otherwise populate the cache and return the read model. -/
def OrdersRepository.get (st : RepoState) (order_id : String) :
    Except Err OrderRead × RepoState × List Effect :=
  let key := order_cache_key order_id
  let fx0 : List Effect := if st.redis then [.cacheGet key] else []
  match (if st.redis then get_cached st.cache key else none) with
  | some cached => (.ok cached, st, fx0)
  | none =>
    match scalar_one_or_none (st.store.filter (fun o => o.id == order_id)) with
    | .error e => (.error e, st, fx0 ++ [.storeQuery])
    | .ok none => (.error .notFound, st, fx0 ++ [.storeQuery])
    | .ok (some order) =>
      let read := OrderRead.ofOrder order
      if st.redis then
        if st.cacheSetFails then
          (.error .cacheFailure, st, fx0 ++ [.storeQuery])
        else
          (.ok read,
            { st with cache := set_cached st.cache key read cache_ttl_seconds },
            fx0 ++ [.storeQuery, .cacheSet key cache_ttl_seconds])
      else
        (.ok read, st, fx0 ++ [.storeQuery])

/-- In-place mutation of the selected ORM row (`order.status = data.status`
followed by commit): the first row matching the id gets the new status. -/
def storeSetStatus : List Order → String → OrderStatus → List Order
  | [], _, _ => []
  | o :: rest, oid, s =>
    if o.id == oid then { o with status := s } :: rest
    else o :: storeSetStatus rest oid s

/-- `OrdersRepository.update_status` (app/repositories/orders.py): select
from the store (never the cache), raise `notFound` when absent, commit the
new status, then invalidate the cache key and repopulate it with the
freshly committed read model. -/
def OrdersRepository.update_status (st : RepoState) (order_id : String)
    (data : OrderUpdateStatus) : Except Err OrderRead × RepoState × List Effect :=
  match scalar_one_or_none (st.store.filter (fun o => o.id == order_id)) with
  | .error e => (.error e, st, [.storeQuery])
  | .ok none => (.error .notFound, st, [.storeQuery])
  | .ok (some order) =>
    let updated : Order := { order with status := data.status }
    let st1 : RepoState := { st with store := storeSetStatus st.store order_id data.status }
    let read := OrderRead.ofOrder updated
    if st.redis then
      let key := order_cache_key order_id
      let st2 : RepoState := { st1 with cache := invalidate_key st1.cache key }
      if st.cacheSetFails then
        (.error .cacheFailure, st2, [.storeQuery, .storeCommit, .cacheDelete key])
      else
        (.ok read,
          { st2 with cache := set_cached st2.cache key read cache_ttl_seconds },
          [.storeQuery, .storeCommit, .cacheDelete key, .cacheSet key cache_ttl_seconds])
    else
      (.ok read, st1, [.storeQuery, .storeCommit])

/-- `OrdersRepository.list_for_user` (app/repositories/orders.py): select
by owner ordered by `created_at` descending; deliberately bypasses the
cache. -/
def OrdersRepository.list_for_user (st : RepoState) (user_id : Nat) :
    List OrderRead × RepoState × List Effect :=
  let rows := (st.store.filter (fun o => o.user_id == user_id)).mergeSort
    (fun a b => decide (b.created_at ≤ a.created_at))
  (rows.map OrderRead.ofOrder, st, [.storeQuery])

/-- `OrdersService.create_order` (app/services/orders.py): delegate to the
repository, then publish the new-order event with the created id. -/
def OrdersService.create_order (st : RepoState) (newId : String) (user_id : Nat)
    (payload : OrderCreate) : Except Err OrderRead × RepoState × List Effect :=
  match OrdersRepository.create st newId user_id payload with
  | (.ok order, st1, fx) => (.ok order, st1, fx ++ [.publish order.id])
  | (.error e, st1, fx) => (.error e, st1, fx)

/-- `OrdersService.get_order_for_user` (app/services/orders.py): fetch via
the repository, then raise `forbidden` when owned by a different user. -/
def OrdersService.get_order_for_user (st : RepoState) (user_id : Nat)
    (order_id : String) : Except Err OrderRead × RepoState × List Effect :=
  match OrdersRepository.get st order_id with
  | (.error e, st1, fx) => (.error e, st1, fx)
  | (.ok order, st1, fx) =>
    if order.user_id ≠ user_id then (.error .forbidden, st1, fx)
    else (.ok order, st1, fx)

/-- `OrdersService.update_status_for_user` (app/services/orders.py): fetch,
check ownership, then delegate the update to the repository. -/
def OrdersService.update_status_for_user (st : RepoState) (user_id : Nat)
    (order_id : String) (payload : OrderUpdateStatus) :
    Except Err OrderRead × RepoState × List Effect :=
  match OrdersRepository.get st order_id with
  | (.error e, st1, fx) => (.error e, st1, fx)
  | (.ok existing, st1, fx) =>
    if existing.user_id ≠ user_id then (.error .forbidden, st1, fx)
    else
      match OrdersRepository.update_status st1 order_id payload with
      | (r, st2, fx2) => (r, st2, fx ++ fx2)

/-- `OrdersService.list_orders_for_user` (app/services/orders.py). -/
def OrdersService.list_orders_for_user (st : RepoState) (user_id : Nat) :
    List OrderRead × RepoState × List Effect :=
  OrdersRepository.list_for_user st user_id

/-- Persisted user row (`User` in app/db/models.py); `id` is the
autoincrement primary key. -/
structure User where
  id : Nat
  email : String
  password_hash : String
deriving DecidableEq, Repr

/-- Public user read model (`UserRead` in app/schemas/auth.py): id and
email only. -/
structure UserRead where
  id : Nat
  email : String
deriving DecidableEq, Repr

/-- Users table plus the autoincrement counter. -/
structure UsersState where
  users : List User
  nextId : Nat
deriving DecidableEq, Repr

/-- `UsersRepository.get_by_email` (app/repositories/users.py): select by
email, `scalar_one_or_none`. -/
def UsersRepository.get_by_email (st : UsersState) (email : String) :
    Except Err (Option User) :=
  scalar_one_or_none (st.users.filter (fun u => u.email == email))

/-- `UsersRepository.create` (app/repositories/users.py): insert and
commit; the store assigns the next id. -/
def UsersRepository.create (st : UsersState) (email : String)
    (password_hash : String) : User × UsersState :=
  let u : User := { id := st.nextId, email := email, password_hash := password_hash }
  (u, { users := st.users ++ [u], nextId := st.nextId + 1 })

/-- `AuthService.register` (app/services/auth.py): raise `email_exists`
when the email is already present, otherwise hash the password (via the
opaque provider `hashPassword`) and persist a new user. -/
def AuthService.register (hashPassword : String → String) (st : UsersState)
    (email : String) (password : String) : Except Err UserRead × UsersState :=
  match UsersRepository.get_by_email st email with
  | .error e => (.error e, st)
  | .ok (some _) => (.error .emailExists, st)
  | .ok none =>
    let r := UsersRepository.create st email (hashPassword password)
    (.ok { id := r.1.id, email := r.1.email }, r.2)

/-! ### Helper lemmas -/

theorem order_cache_key_inj {a b : String}
    (h : order_cache_key a = order_cache_key b) : a = b := by
  unfold order_cache_key cache_key at h
  have hd := congrArg String.data h
  simp only [String.data_append] at hd
  exact String.ext (List.append_cancel_left hd)

theorem get_cached_set_cached_same (c : List CacheEntry) (k : String)
    (v : OrderRead) (t : Nat) : get_cached (set_cached c k v t) k = some v := by
  simp [get_cached, set_cached]

theorem mem_invalidate_key {c : List CacheEntry} {k : String} {e : CacheEntry}
    (h : e ∈ invalidate_key c k) : e ∈ c ∧ e.key ≠ k := by
  simp only [invalidate_key, List.mem_filter, bne_iff_ne, ne_eq] at h
  exact h

theorem mem_set_cached {c : List CacheEntry} {k : String} {v : OrderRead}
    {t : Nat} {e : CacheEntry} (h : e ∈ set_cached c k v t) :
    e = { key := k, value := v, ttl := t } ∨ (e ∈ c ∧ e.key ≠ k) := by
  simp only [set_cached, List.mem_cons, List.mem_filter, bne_iff_ne, ne_eq] at h
  exact h

theorem scalar_eq_some {α : Type} {l : List α} {a : α} :
    scalar_one_or_none l = .ok (some a) ↔ l = [a] := by
  match l with
  | [] => simp [scalar_one_or_none]
  | [b] => simp [scalar_one_or_none]
  | _ :: _ :: _ => simp [scalar_one_or_none]

theorem scalar_eq_none {α : Type} {l : List α} :
    scalar_one_or_none l = .ok none ↔ l = [] := by
  match l with
  | [] => simp [scalar_one_or_none]
  | [b] => simp [scalar_one_or_none]
  | _ :: _ :: _ => simp [scalar_one_or_none]

theorem storeSetStatus_filter_ne (s : List Order) (i j : String)
    (S : OrderStatus) (h : j ≠ i) :
    (storeSetStatus s i S).filter (fun o => o.id == j) =
      s.filter (fun o => o.id == j) := by
  induction s with
  | nil => rfl
  | cons a rest ih =>
    by_cases ha : a.id = i
    · have h1 : (a.id == i) = true := beq_iff_eq.mpr ha
      have h2 : (a.id == j) = false := by
        rw [beq_eq_false_iff_ne, ha]
        exact fun hh => h hh.symm
      simp [storeSetStatus, h1, List.filter_cons, h2]
    · have h1 : (a.id == i) = false := beq_eq_false_iff_ne.mpr ha
      simp [storeSetStatus, h1, List.filter_cons, ih]

theorem storeSetStatus_filter_eq {s : List Order} {i : String} {o : Order}
    (S : OrderStatus) (h : s.filter (fun x => x.id == i) = [o]) :
    (storeSetStatus s i S).filter (fun x => x.id == i) =
      [{ o with status := S }] := by
  induction s with
  | nil => simp at h
  | cons a rest ih =>
    by_cases ha : a.id = i
    · have h1 : (a.id == i) = true := beq_iff_eq.mpr ha
      simp only [List.filter_cons, h1, if_true] at h
      have hao : a = o := (List.cons_eq_cons.mp h).1
      have hr : rest.filter (fun x => x.id == i) = [] :=
        (List.cons_eq_cons.mp h).2
      have hoi : o.id = i := hao ▸ ha
      simp [storeSetStatus, h1, List.filter_cons, hao, hr, hoi]
    · have h1 : (a.id == i) = false := beq_eq_false_iff_ne.mpr ha
      simp only [List.filter_cons, h1, if_false] at h
      simp [storeSetStatus, h1, List.filter_cons, ih h]

theorem storeSetStatus_decomp {s : List Order} {i : String} {o : Order}
    (S : OrderStatus) (h : s.filter (fun x => x.id == i) = [o]) :
    ∃ l1 l2, s = l1 ++ o :: l2 ∧
      storeSetStatus s i S = l1 ++ { o with status := S } :: l2 ∧
      (∀ x ∈ l1, x.id ≠ i) ∧ o.id = i := by
  induction s with
  | nil => simp at h
  | cons a rest ih =>
    by_cases ha : a.id = i
    · have h1 : (a.id == i) = true := beq_iff_eq.mpr ha
      simp only [List.filter_cons, h1, if_true] at h
      have hao : a = o := (List.cons_eq_cons.mp h).1
      have hoi : o.id = i := hao ▸ ha
      refine ⟨[], rest, by simp [hao], ?_, by simp, hoi⟩
      simp [storeSetStatus, h1, hao, hoi]
    · have h1 : (a.id == i) = false := beq_eq_false_iff_ne.mpr ha
      simp only [List.filter_cons, h1, if_false] at h
      obtain ⟨l1, l2, hs, hset, hl1, hoid⟩ := ih h
      exact ⟨a :: l1, l2, by simp [hs], by simp [storeSetStatus, h1, hset],
        by simpa [ha] using hl1, hoid⟩

/-! ### Claim theorems -/

/-- Claim C1: for every order id whose cache entry is present (a cache hit),
`OrdersRepository.get` returns the cached value directly — unchanged state,
only the cache lookup in the trace — and performs zero store queries. -/
theorem C1_cache_hit_short_circuit (st : RepoState) (order_id : String)
    (v : OrderRead) (hr : st.redis = true)
    (hc : get_cached st.cache (order_cache_key order_id) = some v) :
    OrdersRepository.get st order_id =
      (.ok v, st, [.cacheGet (order_cache_key order_id)]) ∧
    (OrdersRepository.get st order_id).2.2.countP isStoreQuery = 0 := by
  have hmain : OrdersRepository.get st order_id =
      (.ok v, st, [.cacheGet (order_cache_key order_id)]) := by
    unfold OrdersRepository.get
    rw [hr]
    simp [hc]
  exact ⟨hmain, by rw [hmain]; rfl⟩

def wRead : OrderRead :=
  { id := "o1", user_id := 7, items := [("sku", 1)], total_price := 125,
    status := .PENDING, created_at := 0 }

def wStHit : RepoState :=
  { store := [],
    cache := [{ key := order_cache_key "o1", value := wRead, ttl := cache_ttl_seconds }],
    redis := true, cacheSetFails := false, now := 0 }

/-- Witness for C1 at a concrete warm-cache state. -/
theorem C1_witness :
    OrdersRepository.get wStHit "o1" =
      (.ok wRead, wStHit, [.cacheGet (order_cache_key "o1")]) ∧
    (OrdersRepository.get wStHit "o1").2.2.countP isStoreQuery = 0 :=
  C1_cache_hit_short_circuit wStHit "o1" wRead rfl rfl

/-- Claim C2: after a successful `update_status(order_id, S)`, the returned
read model has status `S` and an immediately following `get(order_id)`
returns exactly that freshly committed read model (so its status is `S`);
when a cache client is present, the cache step after the commit is a delete
(invalidate) followed by a set (repopulate), in that order. -/
theorem C2_update_then_get (st : RepoState) (order_id : String)
    (S : OrderStatus) (r : OrderRead) (st1 : RepoState) (fx : List Effect)
    (h : OrdersRepository.update_status st order_id ⟨S⟩ = (.ok r, st1, fx)) :
    r.status = S ∧
    (OrdersRepository.get st1 order_id).1 = .ok r ∧
    (st.redis = true → fx = [.storeQuery, .storeCommit,
      .cacheDelete (order_cache_key order_id),
      .cacheSet (order_cache_key order_id) cache_ttl_seconds]) := by
  unfold OrdersRepository.update_status at h
  cases hscal : scalar_one_or_none (st.store.filter (fun o => o.id == order_id)) with
  | error e => rw [hscal] at h; exact absurd h (by simp)
  | ok opt =>
    rw [hscal] at h
    cases opt with
    | none => exact absurd h (by simp)
    | some order =>
      by_cases hrd : st.redis = true
      · by_cases hcf : st.cacheSetFails = true
        · simp only [hrd, hcf, if_true] at h
          exact absurd h (by simp)
        · simp only [hrd, hcf, if_true, Bool.not_eq_true] at h
          rw [if_neg (by simp [hcf])] at h
          simp only [Prod.mk.injEq, Except.ok.injEq] at h
          obtain ⟨hr', hst, hfx⟩ := h
          subst hr'; subst hst; subst hfx
          refine ⟨rfl, ?_, fun _ => rfl⟩
          simp [OrdersRepository.get, get_cached_set_cached_same]
      · simp only [if_neg hrd] at h
        simp only [Prod.mk.injEq, Except.ok.injEq] at h
        obtain ⟨hr', hst, hfx⟩ := h
        subst hr'; subst hst; subst hfx
        refine ⟨rfl, ?_, fun hcontra => absurd hcontra hrd⟩
        have hfil : (storeSetStatus st.store order_id S).filter
            (fun o => o.id == order_id) = [{ order with status := S }] :=
          storeSetStatus_filter_eq S (scalar_eq_some.mp hscal)
        simp [OrdersRepository.get, hrd, hfil, scalar_one_or_none]

def wOrder : Order :=
  { id := "o1", user_id := 7, items := [("sku", 1)], total_price := 125,
    status := .PENDING, created_at := 0 }

def wStB : RepoState :=
  { store := [wOrder], cache := [], redis := true, cacheSetFails := false, now := 0 }

def wReadPaid : OrderRead :=
  { id := "o1", user_id := 7, items := [("sku", 1)], total_price := 125,
    status := .PAID, created_at := 0 }

/-- Witness for C2 at a concrete one-order store. -/
theorem C2_witness :
    wReadPaid.status = .PAID ∧
    (OrdersRepository.get (OrdersRepository.update_status wStB "o1" ⟨.PAID⟩).2.1 "o1").1 =
      .ok wReadPaid ∧
    (wStB.redis = true →
      (OrdersRepository.update_status wStB "o1" ⟨.PAID⟩).2.2 =
        [.storeQuery, .storeCommit, .cacheDelete (order_cache_key "o1"),
          .cacheSet (order_cache_key "o1") cache_ttl_seconds]) :=
  C2_update_then_get wStB "o1" .PAID wReadPaid
    (OrdersRepository.update_status wStB "o1" ⟨.PAID⟩).2.1
    (OrdersRepository.update_status wStB "o1" ⟨.PAID⟩).2.2 rfl

theorem order_cache_key_spell (i : String) :
    order_cache_key i = "order:" ++ i := rfl

/-- Claim C3: every cache entry written by the repository — on create, on a
get miss, and after update_status — is stored under the key
`"order:" + order_id` with TTL `cache_ttl_seconds`, whose reference value
is 300 seconds. -/
theorem C3_cache_key_and_ttl (st : RepoState) (newId order_id : String)
    (user_id : Nat) (d : OrderCreate) (S : OrderStatus) :
    (∀ k t, Effect.cacheSet k t ∈ (OrdersRepository.create st newId user_id d).2.2 →
      k = "order:" ++ newId ∧ t = cache_ttl_seconds) ∧
    (∀ k t, Effect.cacheSet k t ∈ (OrdersRepository.get st order_id).2.2 →
      k = "order:" ++ order_id ∧ t = cache_ttl_seconds) ∧
    (∀ k t, Effect.cacheSet k t ∈ (OrdersRepository.update_status st order_id ⟨S⟩).2.2 →
      k = "order:" ++ order_id ∧ t = cache_ttl_seconds) ∧
    cache_ttl_seconds = 300 := by
  refine ⟨?_, ?_, ?_, rfl⟩
  · intro k t hk
    unfold OrdersRepository.create at hk
    by_cases hr : st.redis = true <;> by_cases hcf : st.cacheSetFails = true <;>
      simp [hr, hcf, order_cache_key_spell] at hk <;>
      exact ⟨hk.1, hk.2⟩
  · intro k t hk
    unfold OrdersRepository.get at hk
    by_cases hr : st.redis = true <;> simp only [hr] at hk
    · split at hk

      · simp at hk
      · split at hk
        · simp at hk
        · simp at hk
        · by_cases hcf : st.cacheSetFails = true <;>
            simp [hcf, order_cache_key_spell] at hk
          exact ⟨hk.1, hk.2⟩
    · split at hk
      · simp at hk
      · split at hk
        · simp at hk
        · simp at hk
        · simp at hk
  · intro k t hk
    unfold OrdersRepository.update_status at hk
    split at hk
    · simp at hk
    · simp at hk
    · by_cases hr : st.redis = true <;> by_cases hcf : st.cacheSetFails = true <;>
        simp [hr, hcf, order_cache_key_spell] at hk <;>
      exact ⟨hk.1, hk.2⟩

/-- Witness for C3: the update at a concrete store does write a cache
entry, and its key and TTL are as claimed. -/
theorem C3_witness :
    Effect.cacheSet (order_cache_key "o1") cache_ttl_seconds ∈
      (OrdersRepository.update_status wStB "o1" ⟨.PAID⟩).2.2 ∧
    order_cache_key "o1" = "order:" ++ "o1" ∧ cache_ttl_seconds = 300 :=
  ⟨by decide,
   ((C3_cache_key_and_ttl wStB "o1" "o1" 7 { items := [], total_price := 0 } .PAID).2.2.1
      (order_cache_key "o1") cache_ttl_seconds (by decide)).1,
   (C3_cache_key_and_ttl wStB "o1" "o1" 7 { items := [], total_price := 0 } .PAID).2.2.2⟩

def wStFail : RepoState :=
  { store := [], cache := [], redis := true, cacheSetFails := true, now := 0 }

/-- Claim C4 counterexample: with a cache client present whose `set` raises,
`OrdersRepository.create` does NOT succeed — the cache error propagates (the
code has no exception handler around the warm-up write) — even though the
store commit already happened: the committed row is in the post state. -/
theorem C4_counterexample :
    (OrdersRepository.create wStFail "o1" 7
        { items := [("sku", 1)], total_price := 125 }).1 = .error .cacheFailure ∧
    (OrdersRepository.create wStFail "o1" 7
        { items := [("sku", 1)], total_price := 125 }).2.1.store =
      [{ id := "o1", user_id := 7, items := [("sku", 1)], total_price := 125,
         status := .PENDING, created_at := 0 }] :=
  ⟨rfl, rfl⟩

/-- Claim C4 (amended): the store commit in `create` is the point of
durability — the new row is in the store afterwards whether or not the
eager cache-population step fails — but a failure of that cache write
propagates: `create` then surfaces the cache error instead of returning
the read model. When the cache write does not fail (or no cache client is
configured), `create` succeeds and returns the read model. -/
theorem C4_commit_durable_cache_error_propagates (st : RepoState)
    (newId : String) (u : Nat) (d : OrderCreate) :
    ((OrdersRepository.create st newId u d).2.1.store = st.store ++
      [{ id := newId, user_id := u, items := d.items, total_price := d.total_price,
         status := .PENDING, created_at := st.now }]) ∧
    (st.redis = true → st.cacheSetFails = true →
      (OrdersRepository.create st newId u d).1 = .error .cacheFailure) ∧
    (st.cacheSetFails = false →
      (OrdersRepository.create st newId u d).1 = .ok (OrderRead.ofOrder
        { id := newId, user_id := u, items := d.items, total_price := d.total_price,
          status := .PENDING, created_at := st.now })) ∧
    (st.redis = false →
      (OrdersRepository.create st newId u d).1 = .ok (OrderRead.ofOrder
        { id := newId, user_id := u, items := d.items, total_price := d.total_price,
          status := .PENDING, created_at := st.now })) := by
  refine ⟨?_, ?_, ?_, ?_⟩
  · by_cases hr : st.redis = true <;> by_cases hcf : st.cacheSetFails = true <;>
      simp [OrdersRepository.create, hr, hcf]
  · intro hr hcf
    simp [OrdersRepository.create, hr, hcf]
  · intro hcf
    by_cases hr : st.redis = true <;> simp [OrdersRepository.create, hr, hcf]
  · intro hr
    simp [OrdersRepository.create, hr]

/-- Witness for the amended C4 at the concrete failing-cache state. -/
theorem C4_witness :
    ((OrdersRepository.create wStFail "o1" 7
        { items := [], total_price := 5 }).2.1.store = wStFail.store ++
      [{ id := "o1", user_id := 7, items := [], total_price := 5,
         status := .PENDING, created_at := 0 }]) ∧
    (wStFail.redis = true → wStFail.cacheSetFails = true →
      (OrdersRepository.create wStFail "o1" 7
        { items := [], total_price := 5 }).1 = .error .cacheFailure) ∧
    (wStFail.cacheSetFails = false →
      (OrdersRepository.create wStFail "o1" 7
        { items := [], total_price := 5 }).1 = .ok (OrderRead.ofOrder
        { id := "o1", user_id := 7, items := [], total_price := 5,
          status := .PENDING, created_at := 0 })) ∧
    (wStFail.redis = false →
      (OrdersRepository.create wStFail "o1" 7
        { items := [], total_price := 5 }).1 = .ok (OrderRead.ofOrder
        { id := "o1", user_id := 7, items := [], total_price := 5,
          status := .PENDING, created_at := 0 })) :=
  C4_commit_durable_cache_error_propagates wStFail "o1" 7
    { items := [], total_price := 5 }

/-- Claim C5: on a cache miss for an order present in the store,
`OrdersRepository.get` queries the store exactly once, returns the stored
order's read model, and populates the cache so that an immediately
following get is a cache hit performing zero store queries; on a cache
miss for an order absent from the store, get fails with `notFound`. -/
theorem C5_miss_then_populate (st : RepoState) (order_id : String)
    (hr : st.redis = true)
    (hm : get_cached st.cache (order_cache_key order_id) = none) :
    (∀ o, st.store.filter (fun x => x.id == order_id) = [o] →
      st.cacheSetFails = false →
      OrdersRepository.get st order_id =
        (.ok (OrderRead.ofOrder o),
         { st with cache := set_cached st.cache (order_cache_key order_id)
                      (OrderRead.ofOrder o) cache_ttl_seconds },
         [.cacheGet (order_cache_key order_id), .storeQuery,
          .cacheSet (order_cache_key order_id) cache_ttl_seconds]) ∧
      (OrdersRepository.get st order_id).2.2.countP isStoreQuery = 1 ∧
      OrdersRepository.get (OrdersRepository.get st order_id).2.1 order_id =
        (.ok (OrderRead.ofOrder o), (OrdersRepository.get st order_id).2.1,
         [.cacheGet (order_cache_key order_id)]) ∧
      (OrdersRepository.get (OrdersRepository.get st order_id).2.1 order_id).2.2.countP
        isStoreQuery = 0) ∧
    (st.store.filter (fun x => x.id == order_id) = [] →
      (OrdersRepository.get st order_id).1 = .error .notFound) := by
  constructor
  · intro o hfil hcf
    have hget : OrdersRepository.get st order_id =
        (.ok (OrderRead.ofOrder o),
         { st with cache := set_cached st.cache (order_cache_key order_id)
                      (OrderRead.ofOrder o) cache_ttl_seconds },
         [.cacheGet (order_cache_key order_id), .storeQuery,
          .cacheSet (order_cache_key order_id) cache_ttl_seconds]) := by
      unfold OrdersRepository.get
      rw [hr]
      simp only [if_true, hm, hfil]
      simp [scalar_one_or_none, hr, hcf]
    refine ⟨hget, by rw [hget]; rfl, ?_, ?_⟩
    · rw [hget]
      unfold OrdersRepository.get
      simp [hr, get_cached_set_cached_same]
    · rw [hget]
      unfold OrdersRepository.get
      simp [hr, get_cached_set_cached_same, List.countP, List.countP.go, isStoreQuery]
  · intro hfil
    unfold OrdersRepository.get
    rw [hr]
    simp only [if_true, hm, hfil]
    simp [scalar_one_or_none]

def wStMiss : RepoState :=
  { store := [wOrder], cache := [], redis := true, cacheSetFails := false, now := 0 }

/-- Witness for C5 at a concrete store with one order and a cold cache. -/
theorem C5_witness :
    wStMiss.store.filter (fun x => x.id == "o1") = [wOrder] ∧
    (OrdersRepository.get wStMiss "o1" =
        (.ok (OrderRead.ofOrder wOrder),
         { wStMiss with cache := set_cached wStMiss.cache (order_cache_key "o1")
                           (OrderRead.ofOrder wOrder) cache_ttl_seconds },
         [.cacheGet (order_cache_key "o1"), .storeQuery,
          .cacheSet (order_cache_key "o1") cache_ttl_seconds]) ∧
      (OrdersRepository.get wStMiss "o1").2.2.countP isStoreQuery = 1 ∧
      OrdersRepository.get (OrdersRepository.get wStMiss "o1").2.1 "o1" =
        (.ok (OrderRead.ofOrder wOrder), (OrdersRepository.get wStMiss "o1").2.1,
         [.cacheGet (order_cache_key "o1")]) ∧
      (OrdersRepository.get (OrdersRepository.get wStMiss "o1").2.1 "o1").2.2.countP
        isStoreQuery = 0) :=
  ⟨by decide,
   (C5_miss_then_populate wStMiss "o1" rfl rfl).1 wOrder (by decide) rfl⟩

/-- Cache/store consistency: every cached entry is keyed by its value's id
and its value is the read model of the unique store row with that id. The
repository maintains this in every reachable state (orders are never
deleted); it is the sense in which the cache is derived state. -/
def CacheConsistent (st : RepoState) : Prop :=
  ∀ e ∈ st.cache, e.key = order_cache_key e.value.id ∧
    ∃ o, st.store.filter (fun x => x.id == e.value.id) = [o] ∧
      e.value = OrderRead.ofOrder o

theorem get_cached_consistent {st : RepoState} {i : String} {v : OrderRead}
    (hcc : CacheConsistent st)
    (h : get_cached st.cache (order_cache_key i) = some v) :
    ∃ o, st.store.filter (fun x => x.id == i) = [o] ∧ v = OrderRead.ofOrder o := by
  unfold get_cached at h
  cases hf : st.cache.find? (fun e => e.key == order_cache_key i) with
  | none => rw [hf] at h; simp at h
  | some e =>
    rw [hf] at h
    have hv : e.value = v := by simpa using h
    have hmem := List.mem_of_find?_eq_some hf
    have hpred := List.find?_some hf
    have hkey : e.key = order_cache_key i := beq_iff_eq.mp hpred
    obtain ⟨hk2, o, hfil, hval⟩ := hcc e hmem
    have hid : e.value.id = i := order_cache_key_inj (hk2.symm.trans hkey)
    rw [hid] at hfil
    exact ⟨o, hfil, hv ▸ hval⟩

theorem get_consistent_found {st : RepoState} {i : String} {o : Order}
    (hcc : CacheConsistent st) (hcf : st.cacheSetFails = false)
    (hfil : st.store.filter (fun x => x.id == i) = [o]) :
    (OrdersRepository.get st i).1 = .ok (OrderRead.ofOrder o) := by
  unfold OrdersRepository.get
  by_cases hr : st.redis = true
  · rw [hr]
    cases hc : get_cached st.cache (order_cache_key i) with
    | some v =>
      obtain ⟨o', hfil', hv⟩ := get_cached_consistent hcc hc
      rw [hfil] at hfil'
      simp only [List.cons.injEq, and_true] at hfil'
      simp [hc, hv, hfil']
    | none => simp [hc, hfil, scalar_one_or_none, hr, hcf]
  · simp only [Bool.not_eq_true] at hr
    simp [hr, hfil, scalar_one_or_none]

theorem get_consistent_absent {st : RepoState} {i : String}
    (hcc : CacheConsistent st)
    (hfil : st.store.filter (fun x => x.id == i) = []) :
    (OrdersRepository.get st i).1 = .error .notFound := by
  unfold OrdersRepository.get
  by_cases hr : st.redis = true
  · rw [hr]
    cases hc : get_cached st.cache (order_cache_key i) with
    | some v =>
      obtain ⟨o', hfil', _⟩ := get_cached_consistent hcc hc
      rw [hfil] at hfil'
      exact absurd hfil' (by simp)
    | none => simp [hc, hfil, scalar_one_or_none]
  · simp only [Bool.not_eq_true] at hr
    simp [hr, hfil, scalar_one_or_none]

/-- Claim C6: under cache/store consistency, `get_order_for_user` and
`update_status_for_user` fail with `notFound` when the order is absent from
the store (never `forbidden` — the existence check runs strictly before the
ownership check, whatever the cache holds), and fail with `forbidden` when
the order exists but is owned by a different user. -/
theorem C6_existence_before_ownership (st : RepoState) (uid : Nat)
    (oid : String) (S : OrderStatus) (hcc : CacheConsistent st)
    (hcf : st.cacheSetFails = false) :
    (st.store.filter (fun x => x.id == oid) = [] →
      (OrdersService.get_order_for_user st uid oid).1 = .error .notFound ∧
      (OrdersService.update_status_for_user st uid oid ⟨S⟩).1 = .error .notFound) ∧
    (∀ o, st.store.filter (fun x => x.id == oid) = [o] → o.user_id ≠ uid →
      (OrdersService.get_order_for_user st uid oid).1 = .error .forbidden ∧
      (OrdersService.update_status_for_user st uid oid ⟨S⟩).1 = .error .forbidden) := by
  constructor
  · intro hfil
    have h1 := get_consistent_absent hcc hfil
    unfold OrdersService.get_order_for_user OrdersService.update_status_for_user
    rcases hg : OrdersRepository.get st oid with ⟨r1, stg, fxg⟩
    rw [hg] at h1
    have h2 : r1 = .error .notFound := h1
    subst h2
    exact ⟨rfl, rfl⟩
  · intro o hfil howner
    have h1 := get_consistent_found hcc hcf hfil
    unfold OrdersService.get_order_for_user OrdersService.update_status_for_user
    rcases hg : OrdersRepository.get st oid with ⟨r1, stg, fxg⟩
    rw [hg] at h1
    have h2 : r1 = .ok (OrderRead.ofOrder o) := h1
    subst h2
    have hne : (OrderRead.ofOrder o).user_id ≠ uid := howner
    simp [hne]

def wOrderB : Order :=
  { id := "o2", user_id := 9, items := [], total_price := 50,
    status := .PENDING, created_at := 3 }

def wStC6 : RepoState :=
  { store := [wOrderB], cache := [], redis := true, cacheSetFails := false, now := 3 }

/-- Witness for C6: a missing order id yields `notFound`, a foreign order
yields `forbidden`, at a concrete consistent state. -/
theorem C6_witness :
    ((OrdersService.get_order_for_user wStC6 7 "zz").1 = .error .notFound ∧
      (OrdersService.update_status_for_user wStC6 7 "zz" ⟨.PAID⟩).1 = .error .notFound) ∧
    ((OrdersService.get_order_for_user wStC6 7 "o2").1 = .error .forbidden ∧
      (OrdersService.update_status_for_user wStC6 7 "o2" ⟨.PAID⟩).1 = .error .forbidden) :=
  ⟨(C6_existence_before_ownership wStC6 7 "zz" .PAID (by intro e he; simp [wStC6] at he) rfl).1
      (by decide),
   (C6_existence_before_ownership wStC6 7 "o2" .PAID (by intro e he; simp [wStC6] at he) rfl).2
      wOrderB (by decide) (by decide)⟩

theorem create_no_publish (st : RepoState) (newId : String) (u : Nat)
    (d : OrderCreate) :
    ∀ e ∈ (OrdersRepository.create st newId u d).2.2, isPublish e = false := by
  intro e he
  unfold OrdersRepository.create at he
  by_cases hr : st.redis = true <;> by_cases hcf : st.cacheSetFails = true <;>
    simp [hr, hcf] at he <;>
    first
      | (subst he; rfl)
      | (rcases he with he | he <;> subst he <;> rfl)

theorem create_ok_shape (st : RepoState) (newId : String) (u : Nat)
    (d : OrderCreate) :
    (OrdersRepository.create st newId u d).1 = .error .cacheFailure ∨
    (OrdersRepository.create st newId u d).1 = .ok (OrderRead.ofOrder
      { id := newId, user_id := u, items := d.items, total_price := d.total_price,
        status := .PENDING, created_at := st.now }) := by
  unfold OrdersRepository.create
  by_cases hr : st.redis = true <;> by_cases hcf : st.cacheSetFails = true <;>
    simp [hr, hcf]

/-- Claim C7: a successful `OrdersService.create_order` publishes exactly one
new-order event; its argument is the id of the newly created order, and it
is appended to the trace strictly after the repository create's own effects
(which contain no publish). -/
theorem C7_publish_on_create (st : RepoState) (newId : String) (u : Nat)
    (d : OrderCreate) (r : OrderRead) (st1 : RepoState) (fx : List Effect)
    (h : OrdersService.create_order st newId u d = (.ok r, st1, fx)) :
    fx.countP isPublish = 1 ∧
    fx = (OrdersRepository.create st newId u d).2.2 ++ [.publish r.id] ∧
    (OrdersRepository.create st newId u d).1 = .ok r ∧
    r.id = newId ∧
    (∀ e ∈ (OrdersRepository.create st newId u d).2.2, isPublish e = false) := by
  unfold OrdersService.create_order at h
  rcases hc : OrdersRepository.create st newId u d with ⟨res, stc, fxc⟩
  rw [hc] at h
  cases res with
  | error e => exact absurd h (by simp)
  | ok order =>
    simp only [Prod.mk.injEq, Except.ok.injEq] at h
    obtain ⟨hor, hst, hfx⟩ := h
    subst hor; subst hst; subst hfx
    have hnp : ∀ e ∈ fxc, isPublish e = false := by
      have h0 := create_no_publish st newId u d
      rw [hc] at h0
      exact h0
    have hcount : fxc.countP isPublish = 0 :=
      List.countP_eq_zero.mpr (by intro a ha; simp [hnp a ha])
    have hid : order.id = newId := by
      rcases create_ok_shape st newId u d with h2 | h2 <;> rw [hc] at h2
      · exact absurd h2 (by simp)
      · have h3 : order = OrderRead.ofOrder
            { id := newId, user_id := u, items := d.items, total_price := d.total_price,
              status := .PENDING, created_at := st.now } := by
          simpa using h2
        simp [h3, OrderRead.ofOrder]
    refine ⟨?_, rfl, rfl, hid, hnp⟩
    simp [List.countP_append, hcount, List.countP_cons, isPublish]

def wReadNine : OrderRead :=
  { id := "o9", user_id := 7, items := [], total_price := 5,
    status := .PENDING, created_at := 0 }

/-- Witness for C7 at a concrete create. -/
theorem C7_witness :
    (OrdersService.create_order wStMiss "o9" 7
        { items := [], total_price := 5 }).2.2.countP isPublish = 1 ∧
    (OrdersService.create_order wStMiss "o9" 7
        { items := [], total_price := 5 }).2.2 =
      (OrdersRepository.create wStMiss "o9" 7
        { items := [], total_price := 5 }).2.2 ++ [.publish wReadNine.id] ∧
    (OrdersRepository.create wStMiss "o9" 7
        { items := [], total_price := 5 }).1 = .ok wReadNine ∧
    wReadNine.id = "o9" ∧
    (∀ e ∈ (OrdersRepository.create wStMiss "o9" 7
        { items := [], total_price := 5 }).2.2, isPublish e = false) :=
  C7_publish_on_create wStMiss "o9" 7 { items := [], total_price := 5 }
    wReadNine
    (OrdersService.create_order wStMiss "o9" 7 { items := [], total_price := 5 }).2.1
    (OrdersService.create_order wStMiss "o9" 7 { items := [], total_price := 5 }).2.2
    rfl

/-- Claim C9: registering an email that is already present fails with the
`email_exists` conflict and leaves the state — in particular the first
registration's user record and id — unchanged. -/
theorem C9_duplicate_registration (hash : String → String) (st0 : UsersState)
    (email p1 p2 : String) (r : UserRead) (st1 : UsersState)
    (h : AuthService.register hash st0 email p1 = (.ok r, st1)) :
    AuthService.register hash st1 email p2 = (.error .emailExists, st1) ∧
    ({ id := r.id, email := email, password_hash := hash p1 } : User) ∈ st1.users ∧
    r.id = st0.nextId ∧ r.email = email := by
  unfold AuthService.register at h
  cases hg : UsersRepository.get_by_email st0 email with
  | error e => rw [hg] at h; exact absurd h (by simp)
  | ok opt =>
    rw [hg] at h
    cases opt with
    | some u => exact absurd h (by simp)
    | none =>
      simp only [UsersRepository.create, Prod.mk.injEq, Except.ok.injEq] at h
      obtain ⟨hr1, hst⟩ := h
      subst hst
      unfold UsersRepository.get_by_email at hg
      have hfil : st0.users.filter (fun u => u.email == email) = [] :=
        scalar_eq_none.mp hg
      have hfil1 : (st0.users ++
          ([{ id := st0.nextId, email := email, password_hash := hash p1 }] :
            List User)).filter (fun u => u.email == email) =
          [{ id := st0.nextId, email := email, password_hash := hash p1 }] := by
        simp [List.filter_append, hfil]
      refine ⟨?_, ?_, ?_, ?_⟩
      · unfold AuthService.register UsersRepository.get_by_email
        simp [hfil1, scalar_one_or_none]
      · rw [← hr1]
        simp
      · rw [← hr1]
      · rw [← hr1]

/-- Witness for C9 at a concrete empty identity store. -/
theorem C9_witness :
    AuthService.register (fun s => s ++ "#h")
        { users := [{ id := 1, email := "a@b", password_hash := "pw#h" }], nextId := 2 }
        "a@b" "pw2" =
      (.error .emailExists,
       { users := [{ id := 1, email := "a@b", password_hash := "pw#h" }], nextId := 2 }) ∧
    ({ id := 1, email := "a@b", password_hash := "pw#h" } : User) ∈
      ({ users := [{ id := 1, email := "a@b", password_hash := "pw#h" }],
         nextId := 2 } : UsersState).users ∧
    (1 : Nat) = 1 ∧ "a@b" = "a@b" :=
  C9_duplicate_registration (fun s => s ++ "#h") { users := [], nextId := 1 }
    "a@b" "pw" "pw2" { id := 1, email := "a@b" }
    { users := [{ id := 1, email := "a@b", password_hash := "pw#h" }], nextId := 2 }
    rfl

/-- Claim C10: a successful `update_status` rewrites exactly the targeted
row in place — the new row agrees with the old one on id, user_id, items,
total_price and created_at and only its status becomes the new value — and
every other row of the store is untouched. -/
theorem C10_update_status_frame (st : RepoState) (oid : String)
    (S : OrderStatus) (r : OrderRead) (st1 : RepoState) (fx : List Effect)
    (h : OrdersRepository.update_status st oid ⟨S⟩ = (.ok r, st1, fx)) :
    ∃ l1 o o2 l2, st.store = l1 ++ o :: l2 ∧ st1.store = l1 ++ o2 :: l2 ∧
      o.id = oid ∧ o2.id = o.id ∧ o2.user_id = o.user_id ∧ o2.items = o.items ∧
      o2.total_price = o.total_price ∧ o2.created_at = o.created_at ∧
      o2.status = S := by
  unfold OrdersRepository.update_status at h
  cases hscal : scalar_one_or_none (st.store.filter (fun o => o.id == oid)) with
  | error e => rw [hscal] at h; exact absurd h (by simp)
  | ok opt =>
    rw [hscal] at h
    cases opt with
    | none => exact absurd h (by simp)
    | some order =>
      have hstore : st1.store = storeSetStatus st.store oid S := by
        by_cases hr : st.redis = true
        · by_cases hcf : st.cacheSetFails = true
          · simp only [hr, hcf, if_true] at h
            exact absurd h (by simp)
          · simp only [hr, if_true] at h
            rw [if_neg hcf] at h
            exact congrArg
              (fun t : Except Err OrderRead × RepoState × List Effect => t.2.1.store)
              h.symm
        · simp only [if_neg hr] at h
          exact congrArg
            (fun t : Except Err OrderRead × RepoState × List Effect => t.2.1.store)
            h.symm
      obtain ⟨l1, l2, hsplit, hset, _, hoid⟩ :=
        storeSetStatus_decomp S (scalar_eq_some.mp hscal)
      exact ⟨l1, order, { order with status := S }, l2, hsplit,
        by rw [hstore, hset], hoid, rfl, rfl, rfl, rfl, rfl, rfl⟩

/-- Witness for C10 at a concrete one-order store. -/
theorem C10_witness :
    ∃ l1 o o2 l2, wStB.store = l1 ++ o :: l2 ∧
      (OrdersRepository.update_status wStB "o1" ⟨.PAID⟩).2.1.store = l1 ++ o2 :: l2 ∧
      o.id = "o1" ∧ o2.id = o.id ∧ o2.user_id = o.user_id ∧ o2.items = o.items ∧
      o2.total_price = o.total_price ∧ o2.created_at = o.created_at ∧
      o2.status = .PAID :=
  C10_update_status_frame wStB "o1" .PAID wReadPaid
    (OrdersRepository.update_status wStB "o1" ⟨.PAID⟩).2.1
    (OrdersRepository.update_status wStB "o1" ⟨.PAID⟩).2.2 rfl

/-! ### Whole-sequence machinery for the cacheless-equivalence claim -/

/-- One repository operation; `create` carries its `uuid.uuid4()` draw. -/
inductive Op where
  | create (newId : String) (user_id : Nat) (data : OrderCreate)
  | get (order_id : String)
  | updateStatus (order_id : String) (data : OrderUpdateStatus)
  | listForUser (user_id : Nat)
deriving DecidableEq, Repr

/-- Observable outcome of one repository operation. -/
inductive OpResult where
  | one (r : OrderRead)
  | many (rs : List OrderRead)
  | err (e : Err)
deriving DecidableEq, Repr

def runOp (st : RepoState) : Op → OpResult × RepoState × List Effect
  | .create newId u d =>
    match OrdersRepository.create st newId u d with
    | (.ok r, st1, fx) => (.one r, st1, fx)
    | (.error e, st1, fx) => (.err e, st1, fx)
  | .get oid =>
    match OrdersRepository.get st oid with
    | (.ok r, st1, fx) => (.one r, st1, fx)
    | (.error e, st1, fx) => (.err e, st1, fx)
  | .updateStatus oid d =>
    match OrdersRepository.update_status st oid d with
    | (.ok r, st1, fx) => (.one r, st1, fx)
    | (.error e, st1, fx) => (.err e, st1, fx)
  | .listForUser u =>
    match OrdersRepository.list_for_user st u with
    | (rs, st1, fx) => (.many rs, st1, fx)

def runOps (st : RepoState) : List Op → List OpResult × RepoState × List Effect
  | [] => ([], st, [])
  | op :: rest =>
    let r1 := runOp st op
    let r2 := runOps r1.2.1 rest
    (r1.1 :: r2.1, r2.2.1, r1.2.2 ++ r2.2.2)

/-- Ids consumed by an operation's uuid draw. -/
def opUsed (used : List String) : Op → List String
  | .create newId _ _ => newId :: used
  | _ => used

/-- The uuid draw of a create is fresh for the given used-id set. -/
def OpFresh (used : List String) : Op → Prop
  | .create newId _ _ => newId ∉ used
  | _ => True

/-- Freshness of all uuid draws along a sequence (uuid4 collision-freedom). -/
def OpsFresh : List String → List Op → Prop
  | _, [] => True
  | used, op :: rest => OpFresh used op ∧ OpsFresh (opUsed used op) rest

/-- Simulation relation between a cacheless repository state `a`
(`redis=None`) and a cache-backed one `b` over the same store. -/
structure Sim (used : List String) (a b : RepoState) : Prop where
  store_eq : a.store = b.store
  now_eq : a.now = b.now
  a_nocache : a.redis = false
  b_cache : b.redis = true
  b_setok : b.cacheSetFails = false
  ids_used : ∀ o ∈ b.store, o.id ∈ used
  consistent : CacheConsistent b

theorem filter_eq_single_id {s : List Order} {i : String} {o : Order}
    (h : s.filter (fun x => x.id == i) = [o]) : o.id = i := by
  have hmem : o ∈ s.filter (fun x => x.id == i) := by rw [h]; simp
  exact beq_iff_eq.mp (List.mem_filter.mp hmem).2

theorem storeSetStatus_map_id (s : List Order) (i : String) (S : OrderStatus) :
    (storeSetStatus s i S).map (fun o => o.id) = s.map (fun o => o.id) := by
  induction s with
  | nil => rfl
  | cons a rest ih =>
    by_cases ha : (a.id == i) = true <;> simp [storeSetStatus, ha, ih]

theorem cacheConsistent_populate {b : RepoState} {i : String} {o : Order}
    (hcc : CacheConsistent b)
    (hfil : b.store.filter (fun x => x.id == i) = [o]) :
    CacheConsistent { b with cache := set_cached b.cache (order_cache_key i)
                                        (OrderRead.ofOrder o) cache_ttl_seconds } := by
  intro e he
  rcases mem_set_cached he with he1 | ⟨he2, _⟩
  · subst he1
    have hoid : o.id = i := filter_eq_single_id hfil
    refine ⟨by simp [OrderRead.ofOrder, hoid], o, ?_, rfl⟩
    simpa [OrderRead.ofOrder, hoid] using hfil
  · exact hcc e he2

theorem cacheConsistent_create {b : RepoState} {used : List String}
    {newId : String} {neword : Order}
    (hcc : CacheConsistent b)
    (hused : ∀ o ∈ b.store, o.id ∈ used) (hfresh : newId ∉ used)
    (hid : neword.id = newId) :
    CacheConsistent { b with store := b.store ++ [neword],
                             cache := set_cached b.cache (order_cache_key newId)
                                        (OrderRead.ofOrder neword) cache_ttl_seconds } := by
  have hstorefil : b.store.filter (fun x => x.id == newId) = [] := by
    rw [List.filter_eq_nil_iff]
    intro o ho
    simp only [beq_iff_eq]
    intro hcontra
    exact hfresh (hcontra ▸ hused o ho)
  intro e he
  rcases mem_set_cached he with he1 | ⟨he2, hkey⟩
  · subst he1
    refine ⟨by simp [OrderRead.ofOrder, hid], neword, ?_, rfl⟩
    simp [List.filter_append, OrderRead.ofOrder, hid, hstorefil]
  · obtain ⟨hk, o, hfil, hval⟩ := hcc e he2
    have hne : e.value.id ≠ newId := by
      intro hcontra
      exact hkey (by rw [hk, hcontra])
    refine ⟨hk, o, ?_, hval⟩
    rw [List.filter_append]
    rw [hfil]
    have : ([neword].filter (fun x => x.id == e.value.id)) = [] := by
      simp [hid, beq_iff_eq]
      intro hcontra
      exact hne hcontra.symm
    rw [this, List.append_nil]

theorem cacheConsistent_update {b : RepoState} {i : String} {o : Order}
    (S : OrderStatus) (hcc : CacheConsistent b)
    (hfil : b.store.filter (fun x => x.id == i) = [o]) :
    CacheConsistent { b with store := storeSetStatus b.store i S,
                             cache := set_cached
                                        (invalidate_key b.cache (order_cache_key i))
                                        (order_cache_key i)
                                        (OrderRead.ofOrder { o with status := S })
                                        cache_ttl_seconds } := by
  intro e he
  rcases mem_set_cached he with he1 | ⟨he2, hkey⟩
  · subst he1
    have hoid : o.id = i := filter_eq_single_id hfil
    refine ⟨by simp [OrderRead.ofOrder, hoid], { o with status := S }, ?_, rfl⟩
    have := storeSetStatus_filter_eq S hfil
    simpa [OrderRead.ofOrder, hoid] using this
  · obtain ⟨he3, hkeyne⟩ := mem_invalidate_key he2
    obtain ⟨hk, o', hfil', hval⟩ := hcc e he3
    have hne : e.value.id ≠ i := by
      intro hcontra
      exact hkeyne (by rw [hk, hcontra])
    exact ⟨hk, o', by rw [storeSetStatus_filter_ne _ _ _ _ hne]; exact hfil', hval⟩

theorem get_nocache {st : RepoState} (hr : st.redis = false) (oid : String) :
    OrdersRepository.get st oid =
      ((match scalar_one_or_none (st.store.filter (fun o => o.id == oid)) with
        | .error e => Except.error e
        | .ok none => Except.error Err.notFound
        | .ok (some o) => Except.ok (OrderRead.ofOrder o)),
       st, [Effect.storeQuery]) := by
  unfold OrdersRepository.get
  cases hscal : scalar_one_or_none (st.store.filter (fun o => o.id == oid)) with
  | error e => simp [hr, hscal]
  | ok opt =>
    cases opt with
    | none => simp [hr, hscal]
    | some o => simp [hr, hscal]

theorem runOp_sim_get (used : List String) (a b : RepoState) (oid : String)
    (hs : Sim used a b) :
    (runOp a (.get oid)).1 = (runOp b (.get oid)).1 ∧
    Sim used (runOp a (.get oid)).2.1 (runOp b (.get oid)).2.1 ∧
    (∀ e ∈ (runOp a (.get oid)).2.2, isCacheEffect e = false) := by
  obtain ⟨hstore, hnow, hra, hrb, hsb, hids, hcc⟩ := hs
  have haeq := get_nocache hra oid
  cases hcache : get_cached b.cache (order_cache_key oid) with
  | some v =>
    obtain ⟨o, hfil, hv⟩ := get_cached_consistent hcc hcache
    have hbeq : OrdersRepository.get b oid =
        (.ok v, b, [.cacheGet (order_cache_key oid)]) := by
      unfold OrdersRepository.get
      rw [hrb]
      simp [hcache]
    have hafil : a.store.filter (fun x => x.id == oid) = [o] := by
      rw [hstore]; exact hfil
    rw [hafil] at haeq
    simp only [scalar_one_or_none] at haeq
    have hra' : runOp a (.get oid) =
        (.one (OrderRead.ofOrder o), a, [.storeQuery]) := by
      simp [runOp, haeq]
    have hrb' : runOp b (.get oid) =
        (.one v, b, [.cacheGet (order_cache_key oid)]) := by
      simp [runOp, hbeq]
    rw [hra', hrb']
    refine ⟨by simp [hv], ⟨hstore, hnow, hra, hrb, hsb, hids, hcc⟩, ?_⟩
    intro e he
    simp only [List.mem_singleton] at he
    subst he; rfl
  | none =>
    have hafil : a.store.filter (fun x => x.id == oid) =
        b.store.filter (fun x => x.id == oid) := by rw [hstore]
    rw [hafil] at haeq
    cases hscal : scalar_one_or_none (b.store.filter (fun x => x.id == oid)) with
    | error e =>
      rw [hscal] at haeq
      simp only at haeq
      have hbeq : OrdersRepository.get b oid =
          (.error e, b, [.cacheGet (order_cache_key oid), .storeQuery]) := by
        unfold OrdersRepository.get
        rw [hrb]
        simp [hcache, hscal]
      have hra' : runOp a (.get oid) = (.err e, a, [.storeQuery]) := by
        simp [runOp, haeq]
      have hrb' : runOp b (.get oid) =
          (.err e, b, [.cacheGet (order_cache_key oid), .storeQuery]) := by
        simp [runOp, hbeq]
      rw [hra', hrb']
      refine ⟨rfl, ⟨hstore, hnow, hra, hrb, hsb, hids, hcc⟩, ?_⟩
      intro x hx
      simp only [List.mem_singleton] at hx
      subst hx; rfl
    | ok opt =>
      cases opt with
      | none =>
        rw [hscal] at haeq
        simp only at haeq
        have hbeq : OrdersRepository.get b oid =
            (.error .notFound, b, [.cacheGet (order_cache_key oid), .storeQuery]) := by
          unfold OrdersRepository.get
          rw [hrb]
          simp [hcache, hscal]
        have hra' : runOp a (.get oid) = (.err .notFound, a, [.storeQuery]) := by
          simp [runOp, haeq]
        have hrb' : runOp b (.get oid) =
            (.err .notFound, b, [.cacheGet (order_cache_key oid), .storeQuery]) := by
          simp [runOp, hbeq]
        rw [hra', hrb']
        refine ⟨rfl, ⟨hstore, hnow, hra, hrb, hsb, hids, hcc⟩, ?_⟩
        intro x hx
        simp only [List.mem_singleton] at hx
        subst hx; rfl
      | some o =>
        rw [hscal] at haeq
        simp only at haeq
        have hbeq : OrdersRepository.get b oid =
            (.ok (OrderRead.ofOrder o),
             { b with cache := set_cached b.cache (order_cache_key oid)
                                  (OrderRead.ofOrder o) cache_ttl_seconds },
             [.cacheGet (order_cache_key oid), .storeQuery,
              .cacheSet (order_cache_key oid) cache_ttl_seconds]) := by
          unfold OrdersRepository.get
          rw [hrb]
          simp [hcache, hscal, hsb]
        have hra' : runOp a (.get oid) =
            (.one (OrderRead.ofOrder o), a, [.storeQuery]) := by
          simp [runOp, haeq]
        have hrb' : runOp b (.get oid) =
            (.one (OrderRead.ofOrder o),
             { b with cache := set_cached b.cache (order_cache_key oid)
                                  (OrderRead.ofOrder o) cache_ttl_seconds },
             [.cacheGet (order_cache_key oid), .storeQuery,
              .cacheSet (order_cache_key oid) cache_ttl_seconds]) := by
          simp [runOp, hbeq]
        rw [hra', hrb']
        refine ⟨rfl,
          ⟨hstore, hnow, hra, hrb, hsb, hids,
            cacheConsistent_populate hcc (scalar_eq_some.mp hscal)⟩, ?_⟩
        intro x hx
        simp only [List.mem_singleton] at hx
        subst hx; rfl

theorem runOp_sim_create (used : List String) (a b : RepoState)
    (newId : String) (u : Nat) (d : OrderCreate)
    (hs : Sim used a b) (hf : newId ∉ used) :
    (runOp a (.create newId u d)).1 = (runOp b (.create newId u d)).1 ∧
    Sim (newId :: used) (runOp a (.create newId u d)).2.1
      (runOp b (.create newId u d)).2.1 ∧
    (∀ e ∈ (runOp a (.create newId u d)).2.2, isCacheEffect e = false) := by
  obtain ⟨hstore, hnow, hra, hrb, hsb, hids, hcc⟩ := hs
  have hra' : runOp a (.create newId u d) =
      (.one (OrderRead.ofOrder
         { id := newId, user_id := u, items := d.items,
           total_price := d.total_price, status := .PENDING, created_at := a.now }),
       { a with store := a.store ++
                          [{ id := newId, user_id := u, items := d.items,
                             total_price := d.total_price, status := .PENDING,
                             created_at := a.now }] },
       [.storeCommit]) := by
    simp [runOp, OrdersRepository.create, hra]
  have hrb' : runOp b (.create newId u d) =
      (.one (OrderRead.ofOrder
         { id := newId, user_id := u, items := d.items,
           total_price := d.total_price, status := .PENDING, created_at := b.now }),
       { b with store := b.store ++
                          [{ id := newId, user_id := u, items := d.items,
                             total_price := d.total_price, status := .PENDING,
                             created_at := b.now }],
                cache := set_cached b.cache (order_cache_key newId)
                           (OrderRead.ofOrder
                             { id := newId, user_id := u, items := d.items,
                               total_price := d.total_price, status := .PENDING,
                               created_at := b.now })
                           cache_ttl_seconds },
       [.storeCommit, .cacheSet (order_cache_key newId) cache_ttl_seconds]) := by
    simp [runOp, OrdersRepository.create, hrb, hsb, OrderRead.ofOrder]
  rw [hra', hrb']
  refine ⟨by rw [hnow], ?_, ?_⟩
  · refine ⟨by rw [hstore, hnow], by rw [hnow], hra, hrb, hsb, ?_, ?_⟩
    · intro o ho
      rcases List.mem_append.mp ho with ho | ho
      · exact List.mem_cons_of_mem _ (hids o ho)
      · simp only [List.mem_singleton] at ho
        subst ho
        exact List.mem_cons_self _ _
    · exact cacheConsistent_create hcc hids hf rfl
  · intro x hx
    simp only [List.mem_singleton] at hx
    subst hx; rfl

theorem runOp_sim_update (used : List String) (a b : RepoState)
    (oid : String) (d : OrderUpdateStatus) (hs : Sim used a b) :
    (runOp a (.updateStatus oid d)).1 = (runOp b (.updateStatus oid d)).1 ∧
    Sim used (runOp a (.updateStatus oid d)).2.1
      (runOp b (.updateStatus oid d)).2.1 ∧
    (∀ e ∈ (runOp a (.updateStatus oid d)).2.2, isCacheEffect e = false) := by
  obtain ⟨hstore, hnow, hra, hrb, hsb, hids, hcc⟩ := hs
  have hafil : a.store.filter (fun x => x.id == oid) =
      b.store.filter (fun x => x.id == oid) := by rw [hstore]
  cases hscal : scalar_one_or_none (b.store.filter (fun x => x.id == oid)) with
  | error e =>
    have hra' : runOp a (.updateStatus oid d) = (.err e, a, [.storeQuery]) := by
      simp [runOp, OrdersRepository.update_status, hafil, hscal]
    have hrb' : runOp b (.updateStatus oid d) = (.err e, b, [.storeQuery]) := by
      simp [runOp, OrdersRepository.update_status, hscal]
    rw [hra', hrb']
    exact ⟨rfl, ⟨hstore, hnow, hra, hrb, hsb, hids, hcc⟩,
      by intro x hx; simp only [List.mem_singleton] at hx; subst hx; rfl⟩
  | ok opt =>
    cases opt with
    | none =>
      have hra' : runOp a (.updateStatus oid d) =
          (.err .notFound, a, [.storeQuery]) := by
        simp [runOp, OrdersRepository.update_status, hafil, hscal]
      have hrb' : runOp b (.updateStatus oid d) =
          (.err .notFound, b, [.storeQuery]) := by
        simp [runOp, OrdersRepository.update_status, hscal]
      rw [hra', hrb']
      exact ⟨rfl, ⟨hstore, hnow, hra, hrb, hsb, hids, hcc⟩,
        by intro x hx; simp only [List.mem_singleton] at hx; subst hx; rfl⟩
    | some o =>
      have hra' : runOp a (.updateStatus oid d) =
          (.one (OrderRead.ofOrder { o with status := d.status }),
           { a with store := storeSetStatus a.store oid d.status },
           [.storeQuery, .storeCommit]) := by
        simp [runOp, OrdersRepository.update_status, hafil, hscal, hra]
      have hrb' : runOp b (.updateStatus oid d) =
          (.one (OrderRead.ofOrder { o with status := d.status }),
           { b with store := storeSetStatus b.store oid d.status,
                    cache := set_cached
                               (invalidate_key b.cache (order_cache_key oid))
                               (order_cache_key oid)
                               (OrderRead.ofOrder { o with status := d.status })
                               cache_ttl_seconds },
           [.storeQuery, .storeCommit, .cacheDelete (order_cache_key oid),
            .cacheSet (order_cache_key oid) cache_ttl_seconds]) := by
        simp [runOp, OrdersRepository.update_status, hscal, hrb, hsb]
      rw [hra', hrb']
      refine ⟨rfl, ?_, ?_⟩
      · refine ⟨by rw [hstore], hnow, hra, hrb, hsb, ?_, ?_⟩
        · intro x hx
          have hx2 : x.id ∈ (storeSetStatus b.store oid d.status).map
              (fun o => o.id) := List.mem_map_of_mem _ hx
          rw [storeSetStatus_map_id] at hx2
          obtain ⟨y, hy, hyid⟩ := List.mem_map.mp hx2
          exact hyid ▸ hids y hy
        · exact cacheConsistent_update d.status hcc (scalar_eq_some.mp hscal)
      · intro x hx
        rcases List.mem_pair.mp hx with hx | hx <;> subst hx <;> rfl

theorem runOp_sim_list (used : List String) (a b : RepoState) (u : Nat)
    (hs : Sim used a b) :
    (runOp a (.listForUser u)).1 = (runOp b (.listForUser u)).1 ∧
    Sim used (runOp a (.listForUser u)).2.1 (runOp b (.listForUser u)).2.1 ∧
    (∀ e ∈ (runOp a (.listForUser u)).2.2, isCacheEffect e = false) := by
  obtain ⟨hstore, hnow, hra, hrb, hsb, hids, hcc⟩ := hs
  have hra' : runOp a (.listForUser u) =
      (.many (((a.store.filter (fun o => o.user_id == u)).mergeSort
        (fun x y => decide (y.created_at ≤ x.created_at))).map OrderRead.ofOrder),
       a, [.storeQuery]) := by
    simp [runOp, OrdersRepository.list_for_user]
  have hrb' : runOp b (.listForUser u) =
      (.many (((b.store.filter (fun o => o.user_id == u)).mergeSort
        (fun x y => decide (y.created_at ≤ x.created_at))).map OrderRead.ofOrder),
       b, [.storeQuery]) := by
    simp [runOp, OrdersRepository.list_for_user]
  rw [hra', hrb']
  exact ⟨by rw [hstore], ⟨hstore, hnow, hra, hrb, hsb, hids, hcc⟩,
    by intro x hx; simp only [List.mem_singleton] at hx; subst hx; rfl⟩

theorem runOp_sim (used : List String) (a b : RepoState) (op : Op)
    (hs : Sim used a b) (hf : OpFresh used op) :
    (runOp a op).1 = (runOp b op).1 ∧
    Sim (opUsed used op) (runOp a op).2.1 (runOp b op).2.1 ∧
    (∀ e ∈ (runOp a op).2.2, isCacheEffect e = false) := by
  cases op with
  | create newId u d => exact runOp_sim_create used a b newId u d hs hf
  | get oid => exact runOp_sim_get used a b oid hs
  | updateStatus oid d => exact runOp_sim_update used a b oid d hs
  | listForUser u => exact runOp_sim_list used a b u hs

theorem runOps_sim (ops : List Op) : ∀ used a b, Sim used a b →
    OpsFresh used ops →
    (runOps a ops).1 = (runOps b ops).1 ∧
    (∀ e ∈ (runOps a ops).2.2, isCacheEffect e = false) := by
  induction ops with
  | nil =>
    intro used a b _ _
    exact ⟨rfl, by intro e he; simp [runOps] at he⟩
  | cons op rest ih =>
    intro used a b hs hf
    obtain ⟨hf1, hf2⟩ := hf
    obtain ⟨h1, hsim', hnc⟩ := runOp_sim used a b op hs hf1
    obtain ⟨h2, hnc2⟩ := ih (opUsed used op) _ _ hsim' hf2
    constructor
    · show (runOp a op).1 :: (runOps (runOp a op).2.1 rest).1 =
        (runOp b op).1 :: (runOps (runOp b op).2.1 rest).1
      rw [h1, h2]
    · intro e he
      have he' : e ∈ (runOp a op).2.2 ++ (runOps (runOp a op).2.1 rest).2.2 := he
      rcases List.mem_append.mp he' with h | h
      · exact hnc e h
      · exact hnc2 e h

/-- Claim C8: a repository with `redis=None` performs no cache operations,
and over any operation sequence (with fresh uuid draws, as uuid4 provides)
it returns exactly the same results — values and errors alike — as a
cache-backed repository started on the same store: the cache's absence
changes no observable result. -/
theorem C8_cacheless_equivalence (ops : List Op) (store : List Order)
    (now : Nat) (cacheA : List CacheEntry) (sfA : Bool)
    (hfresh : OpsFresh (store.map (fun o => o.id)) ops) :
    (runOps { store := store, cache := cacheA, redis := false,
              cacheSetFails := sfA, now := now } ops).1 =
    (runOps { store := store, cache := [], redis := true,
              cacheSetFails := false, now := now } ops).1 ∧
    (∀ e ∈ (runOps { store := store, cache := cacheA, redis := false,
                     cacheSetFails := sfA, now := now } ops).2.2,
      isCacheEffect e = false) := by
  refine runOps_sim ops (store.map (fun o => o.id)) _ _ ?_ hfresh
  exact ⟨rfl, rfl, rfl, rfl, rfl,
    fun o ho => List.mem_map_of_mem _ ho,
    fun e he => absurd he (List.not_mem_nil e)⟩

def wOps : List Op :=
  [.create "n1" 5 { items := [("sku", 2)], total_price := 10 },
   .get "n1", .updateStatus "n1" ⟨.PAID⟩, .get "zz", .listForUser 5]

/-- Witness for C8: a concrete five-operation sequence over a one-order
store gives identical result lists with and without the cache, and the
cacheless run performs no cache operation. -/
theorem C8_witness :
    (runOps { store := [wOrder], cache := [], redis := false,
              cacheSetFails := false, now := 1 } wOps).1 =
    (runOps { store := [wOrder], cache := [], redis := true,
              cacheSetFails := false, now := 1 } wOps).1 ∧
    (∀ e ∈ (runOps { store := [wOrder], cache := [], redis := false,
                     cacheSetFails := false, now := 1 } wOps).2.2,
      isCacheEffect e = false) :=
  C8_cacheless_equivalence wOps [wOrder] 1 [] false
    ⟨(by decide : "n1" ∉ List.map (fun o => o.id) [wOrder]),
     trivial, trivial, trivial, trivial, trivial⟩

end OrdersManagement
